import Mathlib

/-!
Shallow embedding of the NMEA reception pipeline of the repository
(src/NMEAParser.cpp, src/NMEAReader.cpp, src/Comms.cpp).

Byte strings (`std::string` contents) are modelled as `List Nat`; each
element is one byte.  Every cast `static_cast<unsigned char>` in the C++
is rendered as `% 256` at the place it occurs, so nothing depends on the
elements being below 256 a priori.
-/

namespace NMEA

/-- A byte string: the contents of a `std::string`, one `Nat` per byte. -/
abbrev ByteStr := List Nat

/-- Convert a Lean string literal of ASCII characters to its byte list. -/
def bytes (s : String) : ByteStr := s.toList.map (fun c => c.toNat)

def dollar : Nat := 36
def asterisk : Nat := 42
def comma : Nat := 44
def cr : Nat := 13
def lf : Nat := 10

/-- Index of the first occurrence of `t` (C++ `std::string::find(char)`;
`none` models `npos`). -/
def idxOf (t : Nat) : ByteStr → Option Nat
  | [] => none
  | a :: rest => if a = t then some 0 else (idxOf t rest).map (· + 1)

/-- `checksum ^= static_cast<unsigned char>(sentence[i])` for `i` in
`[1, a)`: exclusive-or of the bytes strictly between the `$` and the `*`. -/
def xorRange (s : ByteStr) (lo hi : Nat) : Nat :=
  ((s.drop lo).take (hi - lo)).foldl (fun acc b => Nat.xor acc (b % 256)) 0

/-- Whitespace bytes skipped by `operator>>` in the default locale. -/
def isStreamWs (b : Nat) : Bool :=
  b = 32 ∨ b = 9 ∨ b = 10 ∨ b = 11 ∨ b = 12 ∨ b = 13

def isHexDigit (b : Nat) : Bool :=
  (48 ≤ b ∧ b ≤ 57) ∨ (97 ≤ b ∧ b ≤ 102) ∨ (65 ≤ b ∧ b ≤ 70)

def hexVal (b : Nat) : Nat :=
  if 48 ≤ b ∧ b ≤ 57 then b - 48
  else if 97 ≤ b ∧ b ≤ 102 then b - 87
  else if 65 ≤ b ∧ b ≤ 70 then b - 55
  else 0

/-- Value of a string of hex digits (most significant first). -/
def hexDigitsVal (l : ByteStr) : Nat := l.foldl (fun acc b => acc * 16 + hexVal b) 0

/-- Model of `std::istringstream(hex) >> std::hex >> expected` on the
two-byte field `hex`: skip stream whitespace, accept an optional sign,
then read the longest prefix of hex digits; extraction failure (no
digit) stores 0 (C++11).  A `-` sign wraps modulo 2^32 as for an
`unsigned int`.  (The `0x`-prefix path of `num_get` cannot change the
result on a field of at most two bytes: `0x` parses as the value 0
either way, so it is not modelled separately.) -/
def istreamHex (l : ByteStr) : Nat :=
  let l1 := l.dropWhile isStreamWs
  let (neg, l2) : Bool × ByteStr :=
    match l1 with
    | 43 :: rest => (false, rest)
    | 45 :: rest => (true, rest)
    | _ => (false, l1)
  let digits := l2.takeWhile isHexDigit
  if digits = [] then 0
  else
    let v := hexDigitsVal digits % 4294967296
    if neg then (4294967296 - v) % 4294967296 else v

/-- `NMEAParser::validateChecksum` (src/NMEAParser.cpp:9-24).
Returns false on an empty sentence or one not starting with `$`; finds
the first `*`; requires at least two bytes after it; XORs the bytes
strictly between `$` and `*`; compares against the streamed-in hex value
of the two bytes after the `*`, truncated to `unsigned char`. -/
def validateChecksum (s : ByteStr) : Bool :=
  match s with
  | [] => false
  | c0 :: _ =>
    if c0 ≠ dollar then false
    else
      match idxOf asterisk s with
      | none => false
      | some a =>
        if a + 2 ≥ s.length then false
        else
          let checksum := xorRange s 1 a
          let hex := (s.drop (a + 1)).take 2
          let expected := istreamHex hex
          checksum = expected % 256

/-- Claim-side predicate (from the spec's words, for comparison with
`validateChecksum`): the sentence starts with `$`, its first `*` is
followed by at least two characters, those two characters are hex digits
(case-insensitively), and the XOR of the bytes strictly between the `$`
and the `*` equals their two-hex-digit value. -/
def claimChecksumOk (s : ByteStr) : Bool :=
  match s with
  | [] => false
  | c0 :: _ =>
    decide (c0 = dollar) &&
    match idxOf asterisk s with
    | none => false
    | some a =>
      decide (a + 2 < s.length) &&
      isHexDigit (s.getD (a + 1) 0) && isHexDigit (s.getD (a + 2) 0) &&
      decide (xorRange s 1 a = 16 * hexVal (s.getD (a + 1) 0) + hexVal (s.getD (a + 2) 0))

/-- C1, counterexample.  The claim states that a malformed checksum
section with non-hex trailing characters always yields `false`; but on
`"$*ZZ"` the C++ stream extraction fails and (C++11) stores 0, which
equals the XOR of the empty body, so `validateChecksum` returns `true`
while the claimed characterisation rejects the sentence. -/
theorem claim1_counterexample :
    validateChecksum (bytes ("$*ZZ")) = true ∧ claimChecksumOk (bytes ("$*ZZ")) = false := by
  decide

/-- C1, amended.  `validateChecksum` returns `true` iff the sentence
starts with `$`, its first `*` is followed by at least two characters,
and the XOR of the bytes strictly between the `$` and the `*` equals
(mod 256) the value the C++ stream hex extraction reads from the two
characters after the `*` — the longest hex-digit prefix after optional
whitespace and sign, with 0 when no digit can be read. -/
theorem claim1_validateChecksum_amended (s : ByteStr) :
    validateChecksum s = true ↔
      ∃ a, s.head? = some dollar ∧ idxOf asterisk s = some a ∧ a + 2 < s.length ∧
        xorRange s 1 a = istreamHex ((s.drop (a + 1)).take 2) % 256 := by
  unfold validateChecksum
  cases s with
  | nil => simp
  | cons c0 rest =>
    by_cases hc : c0 = dollar
    · subst hc
      simp only [ne_eq, not_true_eq_false, if_false, Bool.false_eq_true, ite_eq_right_iff]
      cases h : idxOf asterisk (dollar :: rest) with
      | none => simp [h]
      | some a =>
        simp only [h, Option.some.injEq, List.head?_cons, true_and]
        constructor
        · intro hb
          simp at hb
          refine ⟨a, rfl, by simp only [List.length_cons]; omega, ?_⟩
          simpa using hb.2
        · rintro ⟨a', ha', hlen, hxor⟩
          cases ha'
          simp
          exact ⟨by simp at hlen; omega, by simpa using hxor⟩
    · simp [hc]

/-- C1, witness: the amended characterisation applied to the textbook
GPGGA sample, whose checksum `47` is correct. -/
theorem claim1_witness :
    ∃ a, (bytes ("$GPGGA,123519,4807.038,N,01131.000,E,1,08,0.9,545.4,M,46.9,M,,*47")).head? =
        some dollar ∧
      idxOf asterisk (bytes ("$GPGGA,123519,4807.038,N,01131.000,E,1,08,0.9,545.4,M,46.9,M,,*47")) =
        some a ∧
      a + 2 < (bytes ("$GPGGA,123519,4807.038,N,01131.000,E,1,08,0.9,545.4,M,46.9,M,,*47")).length ∧
      xorRange (bytes ("$GPGGA,123519,4807.038,N,01131.000,E,1,08,0.9,545.4,M,46.9,M,,*47")) 1 a =
        istreamHex (((bytes
            ("$GPGGA,123519,4807.038,N,01131.000,E,1,08,0.9,545.4,M,46.9,M,,*47")).drop
          (a + 1)).take 2) % 256 :=
  (claim1_validateChecksum_amended
    (bytes ("$GPGGA,123519,4807.038,N,01131.000,E,1,08,0.9,545.4,M,46.9,M,,*47"))).mp (by decide)


/-- Model of the `std::getline(ss, item, ',')` loop in
`NMEAParser::tokenize`: each `getline` consumes up to and including the
next comma (or to end of input) and yields the bytes before it; a final
`getline` that extracts nothing — the stream already exhausted — fails
and ends the loop, so a trailing empty segment after a final comma is
not produced. -/
def getlineSplit : ByteStr → List ByteStr
  | [] => []
  | b :: rest =>
    if b = comma then [] :: getlineSplit rest
    else
      match getlineSplit rest with
      | [] => [[b]]
      | f :: fs => (b :: f) :: fs

/-- Claim-side splitter (from the spec's words): split on every comma,
preserving every empty field including a trailing one; `n` commas give
`n + 1` fields. -/
def commaSplit : ByteStr → List ByteStr
  | [] => [[]]
  | b :: rest =>
    if b = comma then [] :: commaSplit rest
    else
      match commaSplit rest with
      | [] => [[b]]
      | f :: fs => (b :: f) :: fs

/-- `NMEAParser::tokenize` (src/NMEAParser.cpp:26-38).
`start = find('$') + 1` (`npos + 1` wraps to 0 when there is no `$`);
`end = find('*')`; `substr(start, end - start)` takes the rest of the
string when there is no `*` (`npos`) or when the unsigned difference
`end - start` wraps because the first `*` sits before the `$`. -/
def tokenize (s : ByteStr) : List ByteStr :=
  let start := match idxOf dollar s with
    | some i => i + 1
    | none => 0
  let body := match idxOf asterisk s with
    | none => s.drop start
    | some e => if e < start then s.drop start else (s.drop start).take (e - start)
  getlineSplit body

theorem commaSplit_ne_nil (s : ByteStr) : commaSplit s ≠ [] := by
  cases s with
  | nil => simp [commaSplit]
  | cons b rest =>
    unfold commaSplit
    split
    · simp
    · split <;> simp

theorem length_commaSplit (s : ByteStr) :
    (commaSplit s).length = s.count comma + 1 := by
  induction s with
  | nil => simp [commaSplit]
  | cons b rest ih =>
    unfold commaSplit
    by_cases hb : b = comma
    · simp [hb, List.count_cons, ih]
    · have hne := commaSplit_ne_nil rest
      cases h : commaSplit rest with
      | nil => exact absurd h hne
      | cons f fs =>
        simp [List.count_cons, hb, ← ih, h, Ne.symm hb]

theorem getlineSplit_eq_commaSplit (s : ByteStr) :
    getlineSplit s =
      if s = [] then []
      else if s.getLast? = some comma then (commaSplit s).dropLast
      else commaSplit s := by
  induction s with
  | nil => simp [getlineSplit]
  | cons b rest ih =>
    cases rest with
    | nil =>
      by_cases hb : b = comma
      · subst hb
        simp [getlineSplit, commaSplit]
      · simp [getlineSplit, commaSplit, hb]
    | cons c rtail =>
      have hrne : (c :: rtail) ≠ ([] : ByteStr) := by simp
      have ih' : getlineSplit (c :: rtail) =
          if (c :: rtail).getLast? = some comma then (commaSplit (c :: rtail)).dropLast
          else commaSplit (c :: rtail) := by
        rw [ih, if_neg hrne]
      by_cases hb : b = comma
      · subst hb
        have hgs : getlineSplit (comma :: c :: rtail) = [] :: getlineSplit (c :: rtail) := by
          conv_lhs => rw [getlineSplit]
          simp
        have hcs : commaSplit (comma :: c :: rtail) = [] :: commaSplit (c :: rtail) := by
          conv_lhs => rw [commaSplit]
          simp
        rw [hgs, hcs, ih', if_neg (List.cons_ne_nil _ _), List.getLast?_cons_cons]
        by_cases hlast : (c :: rtail).getLast? = some comma
        · rw [if_pos hlast, if_pos hlast,
            List.dropLast_cons_of_ne_nil (commaSplit_ne_nil (c :: rtail))]
        · rw [if_neg hlast, if_neg hlast]
      · have hgs : getlineSplit (b :: c :: rtail) =
            match getlineSplit (c :: rtail) with
            | [] => [[b]]
            | f :: fs => (b :: f) :: fs := by
          conv_lhs => rw [getlineSplit]
          simp [hb]
        rw [hgs, ih', if_neg (List.cons_ne_nil _ _), List.getLast?_cons_cons]
        by_cases hlast : (c :: rtail).getLast? = some comma
        · rw [if_pos hlast, if_pos hlast]
          have hmem : comma ∈ (c :: rtail) := by
            obtain ⟨hh, heq⟩ :=
              List.mem_getLast?_eq_getLast (l := c :: rtail) (x := comma)
                (Option.mem_def.mpr hlast)
            rw [heq]
            exact List.getLast_mem hh
          have hlen : 2 ≤ (commaSplit (c :: rtail)).length := by
            rw [length_commaSplit]
            have : 0 < (c :: rtail).count comma := List.count_pos_iff.mpr hmem
            omega
          cases h : commaSplit (c :: rtail) with
          | nil => exact absurd h (commaSplit_ne_nil _)
          | cons f fs =>
            have hfs : fs ≠ [] := by
              rw [h] at hlen
              intro hfalse
              rw [hfalse] at hlen
              simp at hlen
            have hcs : commaSplit (b :: c :: rtail) = (b :: f) :: fs := by
              conv_lhs => rw [commaSplit]
              simp only [hb, if_false, h]
            rw [hcs, List.dropLast_cons_of_ne_nil hfs,
              List.dropLast_cons_of_ne_nil hfs]
        · rw [if_neg hlast, if_neg hlast]
          have hne := commaSplit_ne_nil (c :: rtail)
          cases h : commaSplit (c :: rtail) with
          | nil => exact absurd h hne
          | cons f fs =>
            have hcs : commaSplit (b :: c :: rtail) = (b :: f) :: fs := by
              conv_lhs => rw [commaSplit]
              simp only [hb, if_false, h]
            rw [hcs]


theorem idxOf_append_cons {t : Nat} (l r : ByteStr) (h : t ∉ l) :
    idxOf t (l ++ t :: r) = some l.length := by
  induction l with
  | nil => simp [idxOf]
  | cons a as ih =>
    have ha : ¬a = t := by
      rintro rfl
      exact h (List.mem_cons_self _ _)
    have ih' := ih (fun hm => h (List.mem_cons_of_mem _ hm))
    simp only [List.cons_append, idxOf, ha, if_false, List.append_eq, ih']
    simp

/-- C8, counterexample.  The claim states that trailing empty fields are
preserved; but the body of `"$A,*00"` is `"A,"`, whose trailing empty
field after the final comma is dropped by the `getline` loop, while the
claimed comma-splitter keeps it. -/
theorem claim8_counterexample :
    tokenize (bytes ("$A,*00")) = [bytes ("A")] ∧
      commaSplit (bytes ("A,")) = [bytes ("A"), []] := by
  decide

/-- C8, amended.  `tokenize` splits the body between the `$` and the
first `*` (both exclusive) on commas, preserving interior empty fields
at their position and yielding the empty sequence for an empty body, but
a single trailing empty field — a body ending in a comma — is dropped.
-/
theorem claim8_tokenize_amended (body tail : ByteStr) (h : asterisk ∉ body) :
    tokenize (dollar :: body ++ asterisk :: tail) =
      if body = [] then []
      else if body.getLast? = some comma then (commaSplit body).dropLast
      else commaSplit body := by
  have hd : idxOf dollar (dollar :: (body ++ asterisk :: tail)) = some 0 := by
    simp [idxOf]
  have ha : idxOf asterisk (dollar :: (body ++ asterisk :: tail)) =
      some (body.length + 1) := by
    have h1 := idxOf_append_cons body tail h
    simp only [idxOf]
    rw [if_neg (by decide : ¬dollar = asterisk), h1]
    simp
  have hmain : tokenize (dollar :: body ++ asterisk :: tail) = getlineSplit body := by
    simp [tokenize, hd, ha, List.take_left]
  rw [hmain, getlineSplit_eq_commaSplit]

/-- C8, witness: the amended statement applied to the body `"A,,B"`,
whose interior empty field is preserved. -/
theorem claim8_witness :
    tokenize (dollar :: bytes ("A,,B") ++ asterisk :: bytes ("00")) =
      if bytes ("A,,B") = [] then []
      else if (bytes ("A,,B")).getLast? = some comma then
        (commaSplit (bytes ("A,,B"))).dropLast
      else commaSplit (bytes ("A,,B")) :=
  claim8_tokenize_amended (bytes ("A,,B")) (bytes ("00")) (by decide)


def isDigit (b : Nat) : Bool := 48 ≤ b ∧ b ≤ 57

/-- Value of a string of decimal digits (most significant first). -/
def digitsVal (l : ByteStr) : Nat := l.foldl (fun acc b => acc * 10 + (b - 48)) 0

/-- Largest finite `double`, `DBL_MAX = (2^53 - 1) * 2^971` (computed in
`ℕ` and cast, keeping it cheap to evaluate). -/
def dblMax : ℚ := (((2 ^ 53 - 1) * 2 ^ 971 : Nat) : ℚ)

/-- Exponent part of a `strtod` literal: `e`/`E` was consumed; an
optional sign then the digits. -/
def expVal (rest : ByteStr) : Int :=
  match rest with
  | 43 :: ds => (digitsVal (ds.takeWhile isDigit) : Int)
  | 45 :: ds => -(digitsVal (ds.takeWhile isDigit) : Int)
  | ds => (digitsVal (ds.takeWhile isDigit) : Int)

/-- Does the exponent part begin with a digit (after an optional sign)?
If not, `strtod` does not consume the `e`. -/
def expHasDigit (rest : ByteStr) : Bool :=
  match rest with
  | 43 :: ds => ds.takeWhile isDigit ≠ []
  | 45 :: ds => ds.takeWhile isDigit ≠ []
  | ds => ds.takeWhile isDigit ≠ []

/-- Model of `std::stod` on decimal literals, with exact rational values
in place of binary64 rounding: skip whitespace, optional sign, an
integer part and an optional fractional part (at least one digit in
total, else `invalid_argument`, modelled as `none`), an optional
exponent; magnitudes beyond `DBL_MAX` throw `out_of_range` (`none`).
Hex/inf/nan literals do not occur in NMEA fields and are not modelled.
-/
def stodQ (s : ByteStr) : Option ℚ :=
  let s1 := s.dropWhile isStreamWs
  let (sgn, s2) : ℚ × ByteStr :=
    match s1 with
    | 43 :: rest => (1, rest)
    | 45 :: rest => (-1, rest)
    | _ => (1, s1)
  let ip := s2.takeWhile isDigit
  let s3 := s2.dropWhile isDigit
  let (fp, s4) : ByteStr × ByteStr :=
    match s3 with
    | 46 :: rest => (rest.takeWhile isDigit, rest.dropWhile isDigit)
    | _ => ([], s3)
  if ip = [] ∧ fp = [] then none
  else
    let e : Int :=
      match s4 with
      | 101 :: rest => if expHasDigit rest then expVal rest else 0
      | 69 :: rest => if expHasDigit rest then expVal rest else 0
      | _ => 0
    let v : ℚ :=
      sgn * ((digitsVal ip : ℚ) + (digitsVal fp : ℚ) / (10 : ℚ) ^ fp.length) * (10 : ℚ) ^ e
    if v < -dblMax ∨ dblMax < v then none else some v

/-- Model of `std::stoi` (base 10): skip whitespace, optional sign, at
least one decimal digit (else `invalid_argument`, modelled as `none`);
values outside the `int` range throw `out_of_range` (`none`). -/
def stoiZ (s : ByteStr) : Option Int :=
  let s1 := s.dropWhile isStreamWs
  let (sgn, s2) : Int × ByteStr :=
    match s1 with
    | 43 :: rest => (1, rest)
    | 45 :: rest => (-1, rest)
    | _ => (1, s1)
  let ds := s2.takeWhile isDigit
  if ds = [] then none
  else
    let v : Int := sgn * (digitsVal ds : Int)
    if v < -2147483648 ∨ 2147483647 < v then none else some v

/-- `NMEAParser::parseLatitude` (src/NMEAParser.cpp:40-46): empty input
returns 0.0; `substr(2)` throws `out_of_range` on a 1-byte input; else
`stod` of the first two bytes plus `stod` of the rest over 60, negated
when the direction byte is `'S'` (83). -/
def parseLatitude (value : ByteStr) (direction : Nat) : Option ℚ :=
  if value = [] then some 0
  else if value.length < 2 then none
  else do
    let deg ← stodQ (value.take 2)
    let mn ← stodQ (value.drop 2)
    let lat := deg + mn / 60
    pure (if direction = 83 then -lat else lat)

/-- `NMEAParser::parseLongitude` (src/NMEAParser.cpp:48-54): as
`parseLatitude` with three degree digits and `'W'` (87). -/
def parseLongitude (value : ByteStr) (direction : Nat) : Option ℚ :=
  if value = [] then some 0
  else if value.length < 3 then none
  else do
    let deg ← stodQ (value.take 3)
    let mn ← stodQ (value.drop 3)
    let lon := deg + mn / 60
    pure (if direction = 87 then -lon else lon)

/-- The typed message records of NMEAParser.hpp, one constructor per
`NMEAMessage` subclass, carrying exactly the fields `parseSentence`
assigns (the unassigned `latDir`/`lonDir` members of the C++ structs are
left out; numeric members are idealised as rationals/integers). -/
inductive NMEAMsg where
  | gprmc (utcTime : ByteStr) (status : Nat) (latitude longitude speed course : ℚ)
      (date : ByteStr)
  | gpgga (utcTime : ByteStr) (latitude longitude : ℚ) (fixQuality numSatellites : Int)
      (hdop altitude : ℚ) (altitudeUnits : Nat)
  | gpgll (latitude longitude : ℚ) (utcTime : ByteStr) (status : Nat)
  | gpvtg (courseTrue : ℚ) (courseTrueUnit : Nat) (speedKnots : ℚ) (speedKnotsUnit : Nat)
      (speedKmh : ℚ) (speedKmhUnit : Nat)
  | gpgsa (mode : Nat) (fixType : Int) (satellitesUsed : List Int) (pdop hdop vdop : ℚ)
  | gpgsv (totalMessages messageNumber satellitesInView : Int)
  deriving DecidableEq, Repr

/-- The `type()` discriminator of each record (NMEAParser.hpp). -/
def msgType : NMEAMsg → ByteStr
  | .gprmc _ _ _ _ _ _ _ => bytes ("GPRMC")
  | .gpgga _ _ _ _ _ _ _ _ => bytes ("GPGGA")
  | .gpgll _ _ _ _ => bytes ("GPGLL")
  | .gpvtg _ _ _ _ _ _ => bytes ("GPVTG")
  | .gpgsa _ _ _ _ _ _ => bytes ("GPGSA")
  | .gpgsv _ _ _ => bytes ("GPGSV")

/-- `fields[i][0]`: `std::string::operator[]` at index 0 of an empty
string legally yields the null character. -/
def charAt0 (f : ByteStr) : Nat := f.headD 0

/-- `fields[i]` on the `std::vector`.  Indices at or beyond
`fields.size()` are undefined behaviour in the C++ (`operator[]` is
unchecked); the model returns the empty string there, a stand-in with no
counterpart in the program — see the C10 analysis of the off-by-one
guards.  Statements about the decoder are therefore confined to field
lists satisfying `decodeAccessesInBounds`, on which every read the
taken branch performs is in bounds and the model agrees with the C++.
-/
def getF (fields : List ByteStr) (i : Nat) : ByteStr := fields.getD i []

/-- One pass of the GPGSA satellite loop (src/NMEAParser.cpp:105-107)
over the remaining indices: a non-empty field is `stoi`-converted and
appended, a conversion failure aborts (the C++ exception propagates to
the `catch`). -/
def gsaLoop (fields : List ByteStr) : List Nat → List Int → Option (List Int)
  | [], acc => some acc
  | i :: is, acc =>
    if getF fields i = [] then gsaLoop fields is acc
    else
      match stoiZ (getF fields i) with
      | none => none
      | some v => gsaLoop fields is (acc ++ [v])

/-- The GPGSA satellite loop, `for (int i = 3; i <= 14; ++i)`. -/
def gsaSats (fields : List ByteStr) : Option (List Int) :=
  gsaLoop fields (List.range' 3 12) []

/-- The dispatch on `fields[0]` of `NMEAParser::parseSentence`
(src/NMEAParser.cpp:59-123) after checksum validation and tokenizing:
each recognized discriminator with enough fields builds its record; any
`std::stod`/`std::stoi`/`substr` failure is caught by the surrounding
`try`/`catch` and yields `nullopt`. -/
def decodeFields (fields : List ByteStr) : Option NMEAMsg :=
  match fields with
  | [] => none
  | ty :: _ =>
    if ty = bytes ("GPRMC") ∧ fields.length ≥ 10 then do
      let lat ← parseLatitude (getF fields 3) (charAt0 (getF fields 4))
      let lon ← parseLongitude (getF fields 5) (charAt0 (getF fields 6))
      let speed ← stodQ (getF fields 7)
      let course ← stodQ (getF fields 8)
      pure (NMEAMsg.gprmc (getF fields 1) (charAt0 (getF fields 2)) lat lon speed course
        (getF fields 9))
    else if ty = bytes ("GPGGA") ∧ fields.length ≥ 10 then do
      let lat ← parseLatitude (getF fields 2) (charAt0 (getF fields 3))
      let lon ← parseLongitude (getF fields 4) (charAt0 (getF fields 5))
      let fq ← stoiZ (getF fields 6)
      let ns ← stoiZ (getF fields 7)
      let hd ← stodQ (getF fields 8)
      let alt ← stodQ (getF fields 9)
      pure (NMEAMsg.gpgga (getF fields 1) lat lon fq ns hd alt (charAt0 (getF fields 10)))
    else if ty = bytes ("GPGLL") ∧ fields.length ≥ 6 then do
      let lat ← parseLatitude (getF fields 1) (charAt0 (getF fields 2))
      let lon ← parseLongitude (getF fields 3) (charAt0 (getF fields 4))
      pure (NMEAMsg.gpgll lat lon (getF fields 5) (charAt0 (getF fields 6)))
    else if ty = bytes ("GPVTG") ∧ fields.length ≥ 8 then do
      let ct ← stodQ (getF fields 1)
      let sk ← stodQ (getF fields 5)
      let skm ← stodQ (getF fields 7)
      pure (NMEAMsg.gpvtg ct (charAt0 (getF fields 2)) sk (charAt0 (getF fields 6)) skm
        (charAt0 (getF fields 8)))
    else if ty = bytes ("GPGSA") ∧ fields.length ≥ 17 then do
      let ft ← stoiZ (getF fields 2)
      let sats ← gsaSats fields
      let pd ← stodQ (getF fields 15)
      let hd ← stodQ (getF fields 16)
      let vd ← stodQ (getF fields 17)
      pure (NMEAMsg.gpgsa (charAt0 (getF fields 1)) ft sats pd hd vd)
    else if ty = bytes ("GPGSV") ∧ fields.length ≥ 4 then do
      let tm ← stoiZ (getF fields 1)
      let mn ← stoiZ (getF fields 2)
      let sv ← stoiZ (getF fields 3)
      pure (NMEAMsg.gpgsv tm mn sv)
    else none

/-- `NMEAParser::parseSentence` (src/NMEAParser.cpp:56-124): validate
the checksum, tokenize, dispatch on the discriminator. -/
def parseSentence (s : ByteStr) : Option NMEAMsg :=
  if validateChecksum s then decodeFields (tokenize s) else none


set_option maxRecDepth 10000 in
unseal Rat.mul Rat.add Rat.inv Rat.sub Rat.ofScientific in
/-- C3.  Parsing the textbook GPGGA sample yields the position-fix
record with latitude `48 + 7.038/60 = 481173/10000`, longitude
`11 + 31/60 = 691/60`, fix quality 1 and satellite count 8; and in
general `parseLatitude` combines the two leading digits with the
remainder over 60, negating exactly for `'S'`, and `parseLongitude` the
three leading digits likewise, negating exactly for `'W'`. -/
theorem claim3_gpgga_sample_and_coordinates :
    (parseSentence (bytes ("$GPGGA,123519,4807.038,N,01131.000,E,1,08,0.9,545.4,M,46.9,M,,*47")) =
      some (NMEAMsg.gpgga (bytes ("123519")) (481173 / 10000) (691 / 60) 1 8 (9 / 10)
        (2727 / 5) 77)) ∧
    (∀ (v : ByteStr) (d : Nat) (a b : ℚ), 2 ≤ v.length →
      stodQ (v.take 2) = some a → stodQ (v.drop 2) = some b →
      parseLatitude v d = some (if d = 83 then -(a + b / 60) else a + b / 60)) ∧
    (∀ (v : ByteStr) (d : Nat) (a b : ℚ), 3 ≤ v.length →
      stodQ (v.take 3) = some a → stodQ (v.drop 3) = some b →
      parseLongitude v d = some (if d = 87 then -(a + b / 60) else a + b / 60)) := by
  refine ⟨by decide, ?_, ?_⟩
  · intro v d a b hlen h1 h2
    have hne : ¬v = [] := by
      intro h
      rw [h] at hlen
      simp at hlen
    unfold parseLatitude
    rw [if_neg hne, if_neg (by omega : ¬v.length < 2), h1, h2]
    rfl
  · intro v d a b hlen h1 h2
    have hne : ¬v = [] := by
      intro h
      rw [h] at hlen
      simp at hlen
    unfold parseLongitude
    rw [if_neg hne, if_neg (by omega : ¬v.length < 3), h1, h2]
    rfl

set_option maxRecDepth 10000 in
unseal Rat.mul Rat.add Rat.inv Rat.sub Rat.ofScientific in
/-- C3, witness: the general coordinate formulas instantiated on the
sample's own coordinate fields with southern/western hemisphere
letters. -/
theorem claim3_witness :
    parseLatitude (bytes ("4807.038")) 83 =
      some (if 83 = 83 then -((48 : ℚ) + (3519 / 500) / 60) else (48 : ℚ) + (3519 / 500) / 60) ∧
    parseLongitude (bytes ("01131.000")) 87 =
      some (if 87 = 87 then -((11 : ℚ) + 31 / 60) else (11 : ℚ) + 31 / 60) :=
  ⟨claim3_gpgga_sample_and_coordinates.2.1 (bytes ("4807.038")) 83 48 (3519 / 500)
      (by decide) (by decide) (by decide),
    claim3_gpgga_sample_and_coordinates.2.2 (bytes ("01131.000")) 87 11 31
      (by decide) (by decide) (by decide)⟩

/-- The field indices each recognized branch of
`NMEAParser::parseSentence` reads (src/NMEAParser.cpp:64-117), next to
its minimum-field-count guard. -/
def gprmcReads : List Nat := [1, 2, 3, 4, 5, 6, 7, 8, 9]
def gpggaReads : List Nat := [1, 2, 3, 4, 5, 6, 7, 8, 9, 10]
def gpgllReads : List Nat := [1, 2, 3, 4, 5, 6]
def gpvtgReads : List Nat := [1, 2, 5, 6, 7, 8]
def gpgsaReads : List Nat := [1, 2] ++ List.range' 3 12 ++ [15, 16, 17]
def gpgsvReads : List Nat := [1, 2, 3]

/-- C10.  The claim asserts that every branch's guard keeps all its
field accesses in bounds.  That holds for GPRMC (guard 10, max index 9)
and GPGSV (guard 4, max index 3), but fails for GPGGA (guard 10 yet
`fields[10]` is read), GPGLL (guard 6, `fields[6]`), GPVTG (guard 8,
`fields[8]`) and GPGSA (guard 17, `fields[17]`): a field list of exactly
the guard's size reaches an out-of-bounds `std::vector::operator[]`. -/
theorem claim10_guard_bug :
    (∀ i ∈ gprmcReads, i < 10) ∧ (∀ i ∈ gpgsvReads, i < 4) ∧
    ¬(∀ i ∈ gpggaReads, i < 10) ∧ ¬(∀ i ∈ gpgllReads, i < 6) ∧
    ¬(∀ i ∈ gpvtgReads, i < 8) ∧ ¬(∀ i ∈ gpgsaReads, i < 17) := by
  decide


/-- Claim-side table (from the spec's words): the recognized
discriminators with their required minimum field counts. -/
def recognizedMin (ty : ByteStr) : Option Nat :=
  if ty = bytes ("GPRMC") then some 10
  else if ty = bytes ("GPGGA") then some 10
  else if ty = bytes ("GPGLL") then some 6
  else if ty = bytes ("GPVTG") then some 8
  else if ty = bytes ("GPGSA") then some 17
  else if ty = bytes ("GPGSV") then some 4
  else none

/-- Claim-side predicate: every field the recognized discriminator
requires converts to its type. -/
def specConvOk (fields : List ByteStr) : Bool :=
  let ty := fields.headD []
  if ty = bytes ("GPRMC") then
    (parseLatitude (getF fields 3) (charAt0 (getF fields 4))).isSome &&
    (parseLongitude (getF fields 5) (charAt0 (getF fields 6))).isSome &&
    (stodQ (getF fields 7)).isSome && (stodQ (getF fields 8)).isSome
  else if ty = bytes ("GPGGA") then
    (parseLatitude (getF fields 2) (charAt0 (getF fields 3))).isSome &&
    (parseLongitude (getF fields 4) (charAt0 (getF fields 5))).isSome &&
    (stoiZ (getF fields 6)).isSome && (stoiZ (getF fields 7)).isSome &&
    (stodQ (getF fields 8)).isSome && (stodQ (getF fields 9)).isSome
  else if ty = bytes ("GPGLL") then
    (parseLatitude (getF fields 1) (charAt0 (getF fields 2))).isSome &&
    (parseLongitude (getF fields 3) (charAt0 (getF fields 4))).isSome
  else if ty = bytes ("GPVTG") then
    (stodQ (getF fields 1)).isSome && (stodQ (getF fields 5)).isSome &&
    (stodQ (getF fields 7)).isSome
  else if ty = bytes ("GPGSA") then
    (stoiZ (getF fields 2)).isSome &&
    (List.range' 3 12).all (fun i => getF fields i = [] || (stoiZ (getF fields i)).isSome) &&
    (stodQ (getF fields 15)).isSome && (stodQ (getF fields 16)).isSome &&
    (stodQ (getF fields 17)).isSome
  else if ty = bytes ("GPGSV") then
    (stoiZ (getF fields 1)).isSome && (stoiZ (getF fields 2)).isSome &&
    (stoiZ (getF fields 3)).isSome
  else true

/-- Claim-side predicate: decoding succeeds — fields non-empty,
discriminator recognized, enough fields, all conversions succeed. -/
def decodeOkSpec (fields : List ByteStr) : Bool :=
  match fields with
  | [] => false
  | ty :: _ =>
    match recognizedMin ty with
    | none => false
    | some m => decide (m ≤ fields.length) && specConvOk fields

/-- Every field index the taken branch of `decodeFields` would read is
within bounds of the field list — the domain on which the C++ performs
no out-of-bounds `std::vector::operator[]` read (see C10); at most one
discriminator test matches, so the other conjuncts hold vacuously. -/
def decodeAccessesInBounds (fields : List ByteStr) : Bool :=
  match fields with
  | [] => true
  | ty :: _ =>
    (if ty = bytes ("GPRMC") ∧ fields.length ≥ 10 then
      gprmcReads.all (fun i => i < fields.length) else true) &&
    (if ty = bytes ("GPGGA") ∧ fields.length ≥ 10 then
      gpggaReads.all (fun i => i < fields.length) else true) &&
    (if ty = bytes ("GPGLL") ∧ fields.length ≥ 6 then
      gpgllReads.all (fun i => i < fields.length) else true) &&
    (if ty = bytes ("GPVTG") ∧ fields.length ≥ 8 then
      gpvtgReads.all (fun i => i < fields.length) else true) &&
    (if ty = bytes ("GPGSA") ∧ fields.length ≥ 17 then
      gpgsaReads.all (fun i => i < fields.length) else true) &&
    (if ty = bytes ("GPGSV") ∧ fields.length ≥ 4 then
      gpgsvReads.all (fun i => i < fields.length) else true)

theorem gsaLoop_isSome (fields : List ByteStr) (l : List Nat) (acc : List Int) :
    (gsaLoop fields l acc).isSome =
      l.all (fun i => getF fields i = [] || (stoiZ (getF fields i)).isSome) := by
  induction l generalizing acc with
  | nil => simp [gsaLoop]
  | cons i is ih =>
    unfold gsaLoop
    by_cases he : getF fields i = []
    · simp [he, ih]
    · simp only [he, if_false]
      cases hs : stoiZ (getF fields i) with
      | none => simp [hs, he]
      | some v => simp [hs, he, ih]

theorem bne_rmc_gga : ¬bytes ("GPRMC") = bytes ("GPGGA") := by decide
theorem bne_rmc_gll : ¬bytes ("GPRMC") = bytes ("GPGLL") := by decide
theorem bne_rmc_vtg : ¬bytes ("GPRMC") = bytes ("GPVTG") := by decide
theorem bne_rmc_gsa : ¬bytes ("GPRMC") = bytes ("GPGSA") := by decide
theorem bne_rmc_gsv : ¬bytes ("GPRMC") = bytes ("GPGSV") := by decide
theorem bne_gga_gll : ¬bytes ("GPGGA") = bytes ("GPGLL") := by decide
theorem bne_gga_vtg : ¬bytes ("GPGGA") = bytes ("GPVTG") := by decide
theorem bne_gga_gsa : ¬bytes ("GPGGA") = bytes ("GPGSA") := by decide
theorem bne_gga_gsv : ¬bytes ("GPGGA") = bytes ("GPGSV") := by decide
theorem bne_gll_vtg : ¬bytes ("GPGLL") = bytes ("GPVTG") := by decide
theorem bne_gll_gsa : ¬bytes ("GPGLL") = bytes ("GPGSA") := by decide
theorem bne_gll_gsv : ¬bytes ("GPGLL") = bytes ("GPGSV") := by decide
theorem bne_vtg_gsa : ¬bytes ("GPVTG") = bytes ("GPGSA") := by decide
theorem bne_vtg_gsv : ¬bytes ("GPVTG") = bytes ("GPGSV") := by decide
theorem bne_gsa_gsv : ¬bytes ("GPGSA") = bytes ("GPGSV") := by decide

theorem gsaSats_isSome (fields : List ByteStr) :
    (gsaSats fields).isSome =
      (List.range' 3 12).all (fun i => getF fields i = [] || (stoiZ (getF fields i)).isSome) := by
  unfold gsaSats
  rw [gsaLoop_isSome]

theorem decodeFields_spec (fields : List ByteStr) :
    ((decodeFields fields).isSome = decodeOkSpec fields) ∧
      (∀ m, decodeFields fields = some m → msgType m = fields.headD []) := by
  cases fields with
  | nil => simp [decodeFields, decodeOkSpec]
  | cons ty rest =>
    by_cases t1 : ty = bytes ("GPRMC")
    · subst t1
      by_cases hlen : 9 ≤ rest.length
      · constructor
        · simp only [decodeFields, false_and, if_false, true_and, List.length_cons, ge_iff_le]
          rw [if_pos (show 10 ≤ rest.length + 1 by omega)]
          cases h1 : parseLatitude (getF (bytes ("GPRMC") :: rest) 3) (charAt0 (getF (bytes ("GPRMC") :: rest) 4)) with
          | none => simp [h1, decodeOkSpec, recognizedMin, specConvOk, hlen]
          | some lat =>
            cases h2 : parseLongitude (getF (bytes ("GPRMC") :: rest) 5) (charAt0 (getF (bytes ("GPRMC") :: rest) 6)) with
            | none => simp [h1, h2, decodeOkSpec, recognizedMin, specConvOk, hlen]
            | some lon =>
              cases h3 : stodQ (getF (bytes ("GPRMC") :: rest) 7) with
              | none => simp [h1, h2, h3, decodeOkSpec, recognizedMin, specConvOk, hlen]
              | some sp =>
                cases h4 : stodQ (getF (bytes ("GPRMC") :: rest) 8) with
                | none => simp [h1, h2, h3, h4, decodeOkSpec, recognizedMin, specConvOk, hlen]
                | some co =>
                  simp [h1, h2, h3, h4, decodeOkSpec, recognizedMin, specConvOk, hlen]
        · intro m h
          simp only [decodeFields, false_and, if_false, true_and, List.length_cons, ge_iff_le] at h
          rw [if_pos (show 10 ≤ rest.length + 1 by omega)] at h
          simp only [Option.pure_def, bind, Option.bind_eq_some, Option.some.injEq] at h
          obtain ⟨lat, _, lon, _, sp, _, co, _, hm⟩ := h
          rw [← hm]
          rfl
      · have hno : decodeFields (bytes ("GPRMC") :: rest) = none := by
          simp [decodeFields, hlen, bne_rmc_gga, bne_rmc_gll, bne_rmc_vtg, bne_rmc_gsa, bne_rmc_gsv]
        constructor
        · simp [hno, decodeOkSpec, recognizedMin, hlen]
        · intro m h
          rw [hno] at h
          exact Option.noConfusion h
    by_cases t2 : ty = bytes ("GPGGA")
    · subst t2
      by_cases hlen : 9 ≤ rest.length
      · constructor
        · simp only [decodeFields, t1, false_and, if_false, true_and, List.length_cons, ge_iff_le]
          rw [if_pos (show 10 ≤ rest.length + 1 by omega)]
          cases h1 : parseLatitude (getF (bytes ("GPGGA") :: rest) 2) (charAt0 (getF (bytes ("GPGGA") :: rest) 3)) with
          | none => simp [h1, decodeOkSpec, recognizedMin, specConvOk, hlen, t1]
          | some lat =>
            cases h2 : parseLongitude (getF (bytes ("GPGGA") :: rest) 4) (charAt0 (getF (bytes ("GPGGA") :: rest) 5)) with
            | none => simp [h1, h2, decodeOkSpec, recognizedMin, specConvOk, hlen, t1]
            | some lon =>
              cases h3 : stoiZ (getF (bytes ("GPGGA") :: rest) 6) with
              | none => simp [h1, h2, h3, decodeOkSpec, recognizedMin, specConvOk, hlen, t1]
              | some fq =>
                cases h4 : stoiZ (getF (bytes ("GPGGA") :: rest) 7) with
                | none => simp [h1, h2, h3, h4, decodeOkSpec, recognizedMin, specConvOk, hlen, t1]
                | some ns =>
                  cases h5 : stodQ (getF (bytes ("GPGGA") :: rest) 8) with
                  | none => simp [h1, h2, h3, h4, h5, decodeOkSpec, recognizedMin, specConvOk, hlen, t1]
                  | some hd =>
                    cases h6 : stodQ (getF (bytes ("GPGGA") :: rest) 9) with
                    | none => simp [h1, h2, h3, h4, h5, h6, decodeOkSpec, recognizedMin, specConvOk, hlen, t1]
                    | some alt =>
                      simp [h1, h2, h3, h4, h5, h6, decodeOkSpec, recognizedMin, specConvOk, hlen, t1]
        · intro m h
          simp only [decodeFields, t1, false_and, if_false, true_and, List.length_cons, ge_iff_le] at h
          rw [if_pos (show 10 ≤ rest.length + 1 by omega)] at h
          simp only [Option.pure_def, bind, Option.bind_eq_some, Option.some.injEq] at h
          obtain ⟨lat, _, lon, _, fq, _, ns, _, hd, _, alt, _, hm⟩ := h
          rw [← hm]
          rfl
      · have hno : decodeFields (bytes ("GPGGA") :: rest) = none := by
          simp [decodeFields, hlen, t1, bne_gga_gll, bne_gga_vtg, bne_gga_gsa, bne_gga_gsv]
        constructor
        · simp [hno, decodeOkSpec, recognizedMin, hlen, t1]
        · intro m h
          rw [hno] at h
          exact Option.noConfusion h
    by_cases t3 : ty = bytes ("GPGLL")
    · subst t3
      by_cases hlen : 5 ≤ rest.length
      · constructor
        · simp only [decodeFields, t1, t2, false_and, if_false, true_and, List.length_cons, ge_iff_le]
          rw [if_pos (show 6 ≤ rest.length + 1 by omega)]
          cases h1 : parseLatitude (getF (bytes ("GPGLL") :: rest) 1) (charAt0 (getF (bytes ("GPGLL") :: rest) 2)) with
          | none => simp [h1, decodeOkSpec, recognizedMin, specConvOk, hlen, t1, t2]
          | some lat =>
            cases h2 : parseLongitude (getF (bytes ("GPGLL") :: rest) 3) (charAt0 (getF (bytes ("GPGLL") :: rest) 4)) with
            | none => simp [h1, h2, decodeOkSpec, recognizedMin, specConvOk, hlen, t1, t2]
            | some lon =>
              simp [h1, h2, decodeOkSpec, recognizedMin, specConvOk, hlen, t1, t2]
        · intro m h
          simp only [decodeFields, t1, t2, false_and, if_false, true_and, List.length_cons, ge_iff_le] at h
          rw [if_pos (show 6 ≤ rest.length + 1 by omega)] at h
          simp only [Option.pure_def, bind, Option.bind_eq_some, Option.some.injEq] at h
          obtain ⟨lat, _, lon, _, hm⟩ := h
          rw [← hm]
          rfl
      · have hno : decodeFields (bytes ("GPGLL") :: rest) = none := by
          simp [decodeFields, hlen, t1, t2, bne_gll_vtg, bne_gll_gsa, bne_gll_gsv]
        constructor
        · simp [hno, decodeOkSpec, recognizedMin, hlen, t1, t2]
        · intro m h
          rw [hno] at h
          exact Option.noConfusion h
    by_cases t4 : ty = bytes ("GPVTG")
    · subst t4
      by_cases hlen : 7 ≤ rest.length
      · constructor
        · simp only [decodeFields, t1, t2, t3, false_and, if_false, true_and, List.length_cons, ge_iff_le]
          rw [if_pos (show 8 ≤ rest.length + 1 by omega)]
          cases h1 : stodQ (getF (bytes ("GPVTG") :: rest) 1) with
          | none => simp [h1, decodeOkSpec, recognizedMin, specConvOk, hlen, t1, t2, t3]
          | some ct =>
            cases h2 : stodQ (getF (bytes ("GPVTG") :: rest) 5) with
            | none => simp [h1, h2, decodeOkSpec, recognizedMin, specConvOk, hlen, t1, t2, t3]
            | some sk =>
              cases h3 : stodQ (getF (bytes ("GPVTG") :: rest) 7) with
              | none => simp [h1, h2, h3, decodeOkSpec, recognizedMin, specConvOk, hlen, t1, t2, t3]
              | some skm =>
                simp [h1, h2, h3, decodeOkSpec, recognizedMin, specConvOk, hlen, t1, t2, t3]
        · intro m h
          simp only [decodeFields, t1, t2, t3, false_and, if_false, true_and, List.length_cons, ge_iff_le] at h
          rw [if_pos (show 8 ≤ rest.length + 1 by omega)] at h
          simp only [Option.pure_def, bind, Option.bind_eq_some, Option.some.injEq] at h
          obtain ⟨ct, _, sk, _, skm, _, hm⟩ := h
          rw [← hm]
          rfl
      · have hno : decodeFields (bytes ("GPVTG") :: rest) = none := by
          simp [decodeFields, hlen, t1, t2, t3, bne_vtg_gsa, bne_vtg_gsv]
        constructor
        · simp [hno, decodeOkSpec, recognizedMin, hlen, t1, t2, t3]
        · intro m h
          rw [hno] at h
          exact Option.noConfusion h
    by_cases t5 : ty = bytes ("GPGSA")
    · subst t5
      by_cases hlen : 16 ≤ rest.length
      · constructor
        · simp only [decodeFields, t1, t2, t3, t4, false_and, if_false, true_and, List.length_cons, ge_iff_le]
          rw [if_pos (show 17 ≤ rest.length + 1 by omega)]
          cases h1 : stoiZ (getF (bytes ("GPGSA") :: rest) 2) with
          | none => simp [h1, decodeOkSpec, recognizedMin, specConvOk, hlen, t1, t2, t3, t4, ← gsaSats_isSome]
          | some ft =>
            cases h2 : gsaSats (bytes ("GPGSA") :: rest) with
            | none => simp [h1, h2, decodeOkSpec, recognizedMin, specConvOk, hlen, t1, t2, t3, t4, ← gsaSats_isSome]
            | some sats =>
              cases h3 : stodQ (getF (bytes ("GPGSA") :: rest) 15) with
              | none => simp [h1, h2, h3, decodeOkSpec, recognizedMin, specConvOk, hlen, t1, t2, t3, t4, ← gsaSats_isSome]
              | some pd =>
                cases h4 : stodQ (getF (bytes ("GPGSA") :: rest) 16) with
                | none => simp [h1, h2, h3, h4, decodeOkSpec, recognizedMin, specConvOk, hlen, t1, t2, t3, t4, ← gsaSats_isSome]
                | some hd =>
                  cases h5 : stodQ (getF (bytes ("GPGSA") :: rest) 17) with
                  | none => simp [h1, h2, h3, h4, h5, decodeOkSpec, recognizedMin, specConvOk, hlen, t1, t2, t3, t4, ← gsaSats_isSome]
                  | some vd =>
                    simp [h1, h2, h3, h4, h5, decodeOkSpec, recognizedMin, specConvOk, hlen, t1, t2, t3, t4, ← gsaSats_isSome]
        · intro m h
          simp only [decodeFields, t1, t2, t3, t4, false_and, if_false, true_and, List.length_cons, ge_iff_le] at h
          rw [if_pos (show 17 ≤ rest.length + 1 by omega)] at h
          simp only [Option.pure_def, bind, Option.bind_eq_some, Option.some.injEq] at h
          obtain ⟨ft, _, sats, _, pd, _, hd, _, vd, _, hm⟩ := h
          rw [← hm]
          rfl
      · have hno : decodeFields (bytes ("GPGSA") :: rest) = none := by
          simp [decodeFields, hlen, t1, t2, t3, t4, bne_gsa_gsv]
        constructor
        · simp [hno, decodeOkSpec, recognizedMin, hlen, t1, t2, t3, t4]
        · intro m h
          rw [hno] at h
          exact Option.noConfusion h
    by_cases t6 : ty = bytes ("GPGSV")
    · subst t6
      by_cases hlen : 3 ≤ rest.length
      · constructor
        · simp only [decodeFields, t1, t2, t3, t4, t5, false_and, if_false, true_and, List.length_cons, ge_iff_le]
          rw [if_pos (show 4 ≤ rest.length + 1 by omega)]
          cases h1 : stoiZ (getF (bytes ("GPGSV") :: rest) 1) with
          | none => simp [h1, decodeOkSpec, recognizedMin, specConvOk, hlen, t1, t2, t3, t4, t5]
          | some tm =>
            cases h2 : stoiZ (getF (bytes ("GPGSV") :: rest) 2) with
            | none => simp [h1, h2, decodeOkSpec, recognizedMin, specConvOk, hlen, t1, t2, t3, t4, t5]
            | some mn =>
              cases h3 : stoiZ (getF (bytes ("GPGSV") :: rest) 3) with
              | none => simp [h1, h2, h3, decodeOkSpec, recognizedMin, specConvOk, hlen, t1, t2, t3, t4, t5]
              | some sv =>
                simp [h1, h2, h3, decodeOkSpec, recognizedMin, specConvOk, hlen, t1, t2, t3, t4, t5]
        · intro m h
          simp only [decodeFields, t1, t2, t3, t4, t5, false_and, if_false, true_and, List.length_cons, ge_iff_le] at h
          rw [if_pos (show 4 ≤ rest.length + 1 by omega)] at h
          simp only [Option.pure_def, bind, Option.bind_eq_some, Option.some.injEq] at h
          obtain ⟨tm, _, mn, _, sv, _, hm⟩ := h
          rw [← hm]
          rfl
      · have hno : decodeFields (bytes ("GPGSV") :: rest) = none := by
          simp [decodeFields, hlen, t1, t2, t3, t4, t5]
        constructor
        · simp [hno, decodeOkSpec, recognizedMin, hlen, t1, t2, t3, t4, t5]
        · intro m h
          rw [hno] at h
          exact Option.noConfusion h
    · constructor
      · simp [decodeFields, decodeOkSpec, recognizedMin, specConvOk, t1, t2, t3, t4, t5, t6]
      · intro m h
        simp [decodeFields, t1, t2, t3, t4, t5, t6] at h


/-- C5.  For every checksum-valid sentence whose taken decode branch
reads only in-bounds field indices, `parseSentence` succeeds exactly
when the tokenized field list is non-empty, its discriminator is
recognized, the list meets the discriminator's minimum field count and
every required field converts; and a returned message's variant always
matches the discriminator.  Failures are values (`none`), never
stream-terminating.  The in-bounds hypothesis is not consumed by the
model — which substitutes the empty string for an out-of-bounds read —
but confines the statement to the inputs on which the C++ is defined:
at exactly-minimum-count GPGGA/GPGLL/GPVTG/GPGSA field lists the code
instead reads one past the vector's end (the C10 bug), so the claimed
contract has no defined behaviour to satisfy there. -/
theorem claim5_parse_contract (s : ByteStr) (hv : validateChecksum s = true)
    (hub : decodeAccessesInBounds (tokenize s) = true) :
    (parseSentence s).isSome = decodeOkSpec (tokenize s) ∧
      ∀ m, parseSentence s = some m → msgType m = (tokenize s).headD [] := by
  have hp : parseSentence s = decodeFields (tokenize s) := by
    unfold parseSentence
    rw [hv]
    rfl
  rw [hp]
  exact ⟨(decodeFields_spec _).1, (decodeFields_spec _).2⟩

/-- C5, witness: the contract applied to the textbook GPGGA sample,
whose 14 fields keep every GPGGA-branch access in bounds. -/
theorem claim5_witness :
    (parseSentence (bytes ("$GPGGA,123519,4807.038,N,01131.000,E,1,08,0.9,545.4,M,46.9,M,,*47"))).isSome =
        decodeOkSpec (tokenize
          (bytes ("$GPGGA,123519,4807.038,N,01131.000,E,1,08,0.9,545.4,M,46.9,M,,*47"))) ∧
      ∀ m, parseSentence
            (bytes ("$GPGGA,123519,4807.038,N,01131.000,E,1,08,0.9,545.4,M,46.9,M,,*47")) =
          some m →
        msgType m = (tokenize
          (bytes ("$GPGGA,123519,4807.038,N,01131.000,E,1,08,0.9,545.4,M,46.9,M,,*47"))).headD [] :=
  claim5_parse_contract _ (by decide) (by decide)


/-- Index of the first `"\r\n"` pair (C++ `std::string::find("\r\n")`). -/
def findCRLF : ByteStr → Option Nat
  | [] => none
  | [_] => none
  | a :: b :: rest =>
    if a = cr ∧ b = lf then some 0
    else (findCRLF (b :: rest)).map (· + 1)

/-- `NMEAReader::extractCompleteSentence` (src/NMEAReader.cpp:58-105) as
a function from the buffer to the extracted sentence (if any) and the
new buffer: no `$` clears the buffer; leading garbage before the first
`$` is erased; without a CRLF the (garbage-stripped) buffer is kept; a
complete sentence is cut out up to the CRLF and dropped from the buffer,
and is returned only if it has a `*` with at least two bytes after it.
-/
def extractCompleteSentence (buf : ByteStr) : Option ByteStr × ByteStr :=
  match idxOf dollar buf with
  | none => (none, [])
  | some startPos =>
    let b1 := buf.drop startPos
    match findCRLF b1 with
    | none => (none, b1)
    | some endPos =>
      let sentence := b1.take endPos
      let b2 := b1.drop (endPos + 2)
      match idxOf asterisk sentence with
      | none => (none, b2)
      | some cp => if cp + 2 ≥ sentence.length then (none, b2) else (some sentence, b2)

/-- `NMEAReader::readAndParseSentence` (src/NMEAReader.cpp:11-56).  The
transport is modelled as the list of successive `readBytes` results; an
empty entry — or an exhausted list — is a timed-out read.  Each loop
iteration extracts a sentence from the buffer and, on success, parses
it: `NMEAParser::parse` is absent from src/ (only this call site names
it), so following the spec's pipeline it is modelled as `parseSentence`,
whose failure is the thrown-and-caught parse error; the loop then falls
through to the timed read, returns "no message" on a timeout, and
otherwise appends the data and repeats. -/
def readAndParseSentence : ByteStr → List ByteStr → Option NMEAMsg × ByteStr
  | buf, reads =>
    match extractCompleteSentence buf with
    | (some sentence, buf1) =>
      match parseSentence sentence with
      | some m => (some m, buf1)
      | none =>
        match reads with
        | [] => (none, buf1)
        | d :: rest =>
          if d = [] then (none, buf1)
          else readAndParseSentence (buf1 ++ d) rest
    | (none, buf1) =>
      match reads with
      | [] => (none, buf1)
      | d :: rest =>
        if d = [] then (none, buf1)
        else readAndParseSentence (buf1 ++ d) rest

/-- Feed each chunk to the buffer in turn, extracting after every feed
(the codec view of the reader's append-then-extract cycle); returns the
extracted frames in order and the final buffer. -/
def feedAll : ByteStr → List ByteStr → List ByteStr × ByteStr
  | buf, [] => ([], buf)
  | buf, c :: cs =>
    let (r, b1) := extractCompleteSentence (buf ++ c)
    let (frames, bf) := feedAll b1 cs
    (r.toList ++ frames, bf)

theorem findCRLF_take {s : ByteStr} (h : findCRLF s = none) (k : Nat) :
    findCRLF (s.take k) = none := by
  induction s using findCRLF.induct generalizing k with
  | case1 => simp [findCRLF]
  | case2 a => cases k <;> simp [findCRLF]
  | case3 a b rest hab =>
    rw [findCRLF, if_pos hab] at h
    exact Option.noConfusion h
  | case4 a b rest hab ih =>
    rw [findCRLF, if_neg hab] at h
    simp only [Option.map_eq_none'] at h
    match k with
    | 0 => simp [findCRLF]
    | 1 => simp [findCRLF]
    | Nat.succ (Nat.succ k') =>
      simp only [List.take_succ_cons]
      rw [findCRLF, if_neg hab]
      have := ih h (k' + 1)
      simp only [List.take_succ_cons] at this
      rw [this]
      rfl

theorem findCRLF_append_cr {s : ByteStr} (h : findCRLF s = none) :
    findCRLF (s ++ [cr]) = none := by
  induction s using findCRLF.induct with
  | case1 => simp [findCRLF]
  | case2 a =>
    simp only [List.cons_append, List.nil_append]
    rw [findCRLF]
    rw [if_neg (by simp [cr, lf])]
    simp [findCRLF]
  | case3 a b rest hab =>
    rw [findCRLF, if_pos hab] at h
    exact Option.noConfusion h
  | case4 a b rest hab ih =>
    rw [findCRLF, if_neg hab] at h
    simp only [Option.map_eq_none'] at h
    simp only [List.cons_append]
    rw [findCRLF, if_neg hab]
    have := ih h
    simp only [List.cons_append] at this
    rw [this]
    rfl

theorem findCRLF_append_crlf {s : ByteStr} (h : findCRLF s = none) :
    findCRLF (s ++ [cr, lf]) = some s.length := by
  induction s using findCRLF.induct with
  | case1 => simp [findCRLF]
  | case2 a =>
    simp only [List.cons_append, List.nil_append]
    rw [findCRLF]
    rw [if_neg (by simp [cr, lf])]
    rw [findCRLF]
    simp
  | case3 a b rest hab =>
    rw [findCRLF, if_pos hab] at h
    exact Option.noConfusion h
  | case4 a b rest hab ih =>
    rw [findCRLF, if_neg hab] at h
    simp only [Option.map_eq_none'] at h
    simp only [List.cons_append]
    rw [findCRLF, if_neg hab]
    have := ih h
    simp only [List.cons_append] at this
    rw [this]
    simp

theorem extract_nil : extractCompleteSentence [] = (none, []) := rfl

theorem extract_no_dollar {b : ByteStr} (h : idxOf dollar b = none) :
    extractCompleteSentence b = (none, []) := by
  unfold extractCompleteSentence
  rw [h]

theorem extract_partial {t : ByteStr} (h : findCRLF (dollar :: t) = none) :
    extractCompleteSentence (dollar :: t) = (none, dollar :: t) := by
  have h0 : idxOf dollar (dollar :: t) = some 0 := by simp [idxOf]
  simp only [extractCompleteSentence, h0, List.drop_zero, h]

theorem extract_complete {body : ByteStr} {cp : Nat}
    (hno : findCRLF (dollar :: body) = none)
    (hast : idxOf asterisk (dollar :: body) = some cp)
    (hcp : cp + 2 < (dollar :: body).length) :
    extractCompleteSentence (dollar :: (body ++ [cr, lf])) = (some (dollar :: body), []) := by
  have h0 : idxOf dollar (dollar :: (body ++ [cr, lf])) = some 0 := by simp [idxOf]
  have hf : findCRLF (dollar :: (body ++ [cr, lf])) = some (body.length + 1) := by
    have := findCRLF_append_crlf hno
    simpa using this
  have htake : (dollar :: (body ++ [cr, lf])).take (body.length + 1) = dollar :: body := by
    simp [List.take_left]
  have hdrop : (dollar :: (body ++ [cr, lf])).drop (body.length + 1 + 2) = [] := by
    rw [List.drop_eq_nil_iff]
    simp
  simp only [extractCompleteSentence, h0, hf, List.drop_zero, htake, hdrop, hast]
  rw [if_neg (not_le.mpr hcp)]


/-- C2.  For a valid CRLF-terminated frame `$body\r\n` (no interior
CRLF, a `*` with at least two bytes after it), splitting its bytes at
any offset into two successive feeds yields exactly one extracted frame,
the `$`-to-before-CRLF sentence, leaving an empty buffer — the same
frame one-shot extraction produces. -/
theorem claim2_split_reassembly (body : ByteStr) (cp : Nat)
    (hno : findCRLF (dollar :: body) = none)
    (hast : idxOf asterisk (dollar :: body) = some cp)
    (hcp : cp + 2 < (dollar :: body).length) :
    ∀ k ≤ (dollar :: (body ++ [cr, lf])).length,
      feedAll [] [(dollar :: (body ++ [cr, lf])).take k,
        (dollar :: (body ++ [cr, lf])).drop k] = ([dollar :: body], []) := by
  intro k hk
  have hext : extractCompleteSentence (dollar :: (body ++ [cr, lf])) =
      (some (dollar :: body), []) := extract_complete hno hast hcp
  have hcr : findCRLF ((dollar :: body) ++ [cr]) = none := findCRLF_append_cr hno
  rcases Nat.lt_or_ge k (dollar :: (body ++ [cr, lf])).length with hlt | hge
  · have hfk : findCRLF ((dollar :: (body ++ [cr, lf])).take k) = none := by
      have hsplit : dollar :: (body ++ [cr, lf]) = ((dollar :: body) ++ [cr]) ++ [lf] := by
        simp
      have hkle : k ≤ ((dollar :: body) ++ [cr]).length := by
        simp only [List.length_cons, List.length_append] at hlt ⊢
        omega
      rw [hsplit, List.take_append_of_le_length hkle]
      exact findCRLF_take hcr k
    have hp1 : extractCompleteSentence ((dollar :: (body ++ [cr, lf])).take k) =
        (none, (dollar :: (body ++ [cr, lf])).take k) := by
      cases k with
      | zero => simpa using extract_nil
      | succ k' =>
        have htk : (dollar :: (body ++ [cr, lf])).take (k' + 1) =
            dollar :: ((body ++ [cr, lf]).take k') := by
          simp
        rw [htk] at hfk ⊢
        exact extract_partial hfk
    simp only [feedAll, List.nil_append, hp1, List.take_append_drop, hext, Option.toList]
    rfl
  · have hk' : k = (dollar :: (body ++ [cr, lf])).length := Nat.le_antisymm hk hge
    subst hk'
    simp only [feedAll, List.nil_append, List.take_length, List.drop_length, hext,
      extract_nil, Option.toList]
    rfl

/-- C2, witness: the GPGSV frame split after its fifth byte. -/
theorem claim2_witness :
    feedAll [] [(dollar :: (bytes ("GPGSV,3,1,11*7B") ++ [cr, lf])).take 5,
      (dollar :: (bytes ("GPGSV,3,1,11*7B") ++ [cr, lf])).drop 5] =
      ([dollar :: bytes ("GPGSV,3,1,11*7B")], []) :=
  claim2_split_reassembly (bytes ("GPGSV,3,1,11*7B")) 13 (by decide) (by decide) (by decide)
    5 (by decide)

/-- C4.  After `extractCompleteSentence`: a buffer without `$` becomes
empty; with a first `$` at index `i`, the new buffer is a suffix of the
old buffer from `i` on (all bytes before the first `$` are removed);
hence feeding any sequence of `$`-free garbage chunks leaves the buffer
empty and produces no frame. -/
theorem claim4_buffer_hygiene :
    (∀ b : ByteStr, idxOf dollar b = none → extractCompleteSentence b = (none, [])) ∧
    (∀ (b : ByteStr) (i : Nat), idxOf dollar b = some i →
      ((extractCompleteSentence b).2).IsSuffix (b.drop i)) ∧
    (∀ chunks : List ByteStr, (∀ c ∈ chunks, idxOf dollar c = none) →
      feedAll [] chunks = ([], [])) := by
  refine ⟨fun b h => extract_no_dollar h, ?_, ?_⟩
  · intro b i h
    unfold extractCompleteSentence
    rw [h]
    dsimp only
    cases hf : findCRLF (b.drop i) with
    | none => exact List.suffix_refl _
    | some e =>
      dsimp only
      cases ha : idxOf asterisk ((b.drop i).take e) with
      | none => exact List.drop_suffix _ _
      | some cp =>
        dsimp only
        split
        · exact List.drop_suffix _ _
        · exact List.drop_suffix _ _
  · intro chunks
    induction chunks with
    | nil => intro _; rfl
    | cons c cs ih =>
      intro hall
      have h1 : extractCompleteSentence ([] ++ c) = (none, []) := by
        rw [List.nil_append]
        exact extract_no_dollar (hall c (List.mem_cons_self _ _))
      simp only [feedAll, h1]
      rw [ih (fun c' hc' => hall c' (List.mem_cons_of_mem _ hc'))]
      rfl

/-- C6.  When the transport read times out (an empty `readBytes`
result), `readAndParseSentence` returns no message both on an empty
buffer and on a buffer holding a partial frame `$...` without CRLF, and
the partial frame stays in the buffer unchanged; a call that never gets
data behaves the same. -/
theorem claim6_timeout (t : ByteStr) (reads : List ByteStr)
    (h : findCRLF (dollar :: t) = none) :
    readAndParseSentence (dollar :: t) ([] :: reads) = (none, dollar :: t) ∧
    readAndParseSentence [] ([] :: reads) = (none, []) ∧
    readAndParseSentence [] [] = (none, []) := by
  refine ⟨?_, ?_, ?_⟩
  · rw [readAndParseSentence, extract_partial h]
    rfl
  · rw [readAndParseSentence, extract_nil]
    rfl
  · rw [readAndParseSentence, extract_nil]

/-- C7, counterexample.  With a bad-checksum frame followed by a
complete valid GPGSV frame in the buffer and no new transport data, a
single `readAndParseSentence` call returns no message — the invalid
frame is consumed, but the reader then performs a transport read instead
of re-extracting, and the timeout ends the call even though the valid
frame is decodable from the already-buffered bytes. -/
theorem claim7_counterexample :
    (readAndParseSentence
        (bytes ("$GPGGA*00") ++ [cr, lf] ++ bytes ("$GPGSV,3,1,11*7B") ++ [cr, lf]) []).1 =
      none ∧
    extractCompleteSentence
        (bytes ("$GPGGA*00") ++ [cr, lf] ++ bytes ("$GPGSV,3,1,11*7B") ++ [cr, lf]) =
      (some (bytes ("$GPGGA*00")), bytes ("$GPGSV,3,1,11*7B") ++ [cr, lf]) ∧
    parseSentence (bytes ("$GPGGA*00")) = none ∧
    parseSentence (bytes ("$GPGSV,3,1,11*7B")) = some (NMEAMsg.gpgsv 3 1 11) := by
  refine ⟨by decide, by decide, by decide, by decide⟩

/-- C7, amended.  After skipping an extracted-but-invalid frame, the
reader performs a transport read; when that read returns data, the
following valid frame is extracted and its message returned within the
same call.  (On a timed-out read the call instead returns no message,
leaving the valid frame buffered for the next call — see the
counterexample.) -/
theorem claim7_skip_then_read (buf d : ByteStr) (reads : List ByteStr)
    (F1 B1 F2 B2 : ByteStr) (m : NMEAMsg)
    (h1 : extractCompleteSentence buf = (some F1, B1))
    (h2 : parseSentence F1 = none)
    (hd : d ≠ [])
    (h3 : extractCompleteSentence (B1 ++ d) = (some F2, B2))
    (h4 : parseSentence F2 = some m) :
    readAndParseSentence buf (d :: reads) = (some m, B2) := by
  rw [readAndParseSentence]
  simp only [h1, h2, hd, if_false]
  rw [readAndParseSentence]
  simp only [h3, h4]

/-- C7, witness: invalid GPGGA frame buffered, valid GPGSV frame
arriving in the read. -/
theorem claim7_witness :
    readAndParseSentence (bytes ("$GPGGA*00") ++ [cr, lf])
      [bytes ("$GPGSV,3,1,11*7B") ++ [cr, lf]] = (some (NMEAMsg.gpgsv 3 1 11), []) :=
  claim7_skip_then_read _ _ [] (bytes ("$GPGGA*00")) [] (bytes ("$GPGSV,3,1,11*7B")) []
    (NMEAMsg.gpgsv 3 1 11) (by decide) (by decide) (by decide) (by decide) (by decide)


/-- C4, witness: a garbage-only buffer is cleared; a buffer with leading
garbage keeps only a suffix from the first `$`; two garbage feeds leave
the buffer empty with no frames. -/
theorem claim4_witness :
    extractCompleteSentence (bytes ("XYZ")) = (none, []) ∧
    ((extractCompleteSentence (bytes ("AB$CD"))).2).IsSuffix ((bytes ("AB$CD")).drop 2) ∧
    feedAll [] [bytes ("XX"), bytes ("YY")] = ([], []) :=
  ⟨claim4_buffer_hygiene.1 (bytes ("XYZ")) (by decide),
    claim4_buffer_hygiene.2.1 (bytes ("AB$CD")) 2 (by decide),
    claim4_buffer_hygiene.2.2 [bytes ("XX"), bytes ("YY")] (by decide)⟩

/-- C6, witness: a timed-out read on a pending partial GPGGA frame and
on an empty buffer. -/
theorem claim6_witness :
    readAndParseSentence (dollar :: bytes ("GPGGA,1")) ([] :: []) =
      (none, dollar :: bytes ("GPGGA,1")) ∧
    readAndParseSentence [] ([] :: []) = (none, []) ∧
    readAndParseSentence [] [] = (none, []) :=
  claim6_timeout (bytes ("GPGGA,1")) [] (by decide)

/-- Big-endian decode of the 4-byte length prefix: reading the four
received bytes into a `uint32_t` and applying `ntohl` (network byte
order, most significant byte first). -/
def beDecode4 (b : ByteStr) : Nat :=
  match b with
  | [b0, b1, b2, b3] =>
    (b0 % 256) * 16777216 + (b1 % 256) * 65536 + (b2 % 256) * 256 + (b3 % 256)
  | _ => 0

/-- The `recv` accumulation loops of `Comms::receiveWithLengthPrefix`
(src/Comms.cpp:134-140 and 145-151): keep calling `recv` until exactly
`n` bytes have arrived; if the stream is exhausted first (`recv <= 0`),
throw (`none`).  The socket is modelled as the list of bytes it will
deliver before closing; `recv` returns between 1 and the requested
count of them, so any chunking yields the same result. -/
def recvExact (stream : ByteStr) (n : Nat) : Option (ByteStr × ByteStr) :=
  if n ≤ stream.length then some (stream.take n, stream.drop n) else none

/-- `Comms::receiveWithLengthPrefix` (src/Comms.cpp:130-154): receive
exactly 4 header bytes, decode the length with `ntohl`, then receive
exactly that many body bytes; returns the body and the rest of the
stream, or `none` when the stream ends first. -/
def receiveWithLengthPrefix (stream : ByteStr) : Option (ByteStr × ByteStr) :=
  match recvExact stream 4 with
  | none => none
  | some (hdr, s1) =>
    let len := beDecode4 hdr
    match recvExact s1 len with
    | none => none
    | some (body, s2) => some (body, s2)

/-- C9.  `receiveWithLengthPrefix` never yields a body shorter than the
declared length: a returned body has exactly the length declared by the
4-byte network-byte-order prefix, and when the stream holds fewer than
`4 + declared` bytes, no frame is produced at all. -/
theorem claim9_length_framing (stream : ByteStr) :
    (∀ body rest, receiveWithLengthPrefix stream = some (body, rest) →
      4 ≤ stream.length ∧ body.length = beDecode4 (stream.take 4)) ∧
    (stream.length < 4 + beDecode4 (stream.take 4) →
      receiveWithLengthPrefix stream = none) := by
  constructor
  · intro body rest h
    unfold receiveWithLengthPrefix recvExact at h
    by_cases h4 : 4 ≤ stream.length
    · rw [if_pos h4] at h
      dsimp only at h
      by_cases hb : beDecode4 (stream.take 4) ≤ (stream.drop 4).length
      · rw [if_pos hb] at h
        dsimp only at h
        refine ⟨h4, ?_⟩
        have hbody : body = (stream.drop 4).take (beDecode4 (stream.take 4)) := by
          exact congrArg Prod.fst (Option.some.inj h) |>.symm
        rw [hbody, List.length_take]
        omega
      · rw [if_neg hb] at h
        exact Option.noConfusion h
    · rw [if_neg h4] at h
      exact Option.noConfusion h
  · intro hshort
    unfold receiveWithLengthPrefix recvExact
    by_cases h4 : 4 ≤ stream.length
    · rw [if_pos h4]
      dsimp only
      rw [if_neg (by simp only [List.length_drop]; omega)]
    · rw [if_neg h4]

/-- C9, witness: a declared length of 2 with only one body byte yields
nothing; a declared length of 1 with one body byte yields exactly it. -/
theorem claim9_witness :
    receiveWithLengthPrefix [0, 0, 0, 2, 65] = none ∧
    (∀ body rest, receiveWithLengthPrefix [0, 0, 0, 1, 65, 66] = some (body, rest) →
      4 ≤ ([0, 0, 0, 1, 65, 66] : ByteStr).length ∧
        body.length = beDecode4 (([0, 0, 0, 1, 65, 66] : ByteStr).take 4)) :=
  ⟨(claim9_length_framing [0, 0, 0, 2, 65]).2 (by decide),
    (claim9_length_framing [0, 0, 0, 1, 65, 66]).1⟩

end NMEA
